import Mathlib

/-!
Verification of the LeadProcessor repository.

This file shallowly embeds the lead-processing pipeline of the repository
(scripts/leadgen_processor.py, scripts/universal_processor.py,
scripts/universal_discovery.py) into Lean 4 and proves the specification
claims about it.

Conventions of the embedding:
* Python strings are Lean `String`; `str.lower()` is `pyLower`,
  `str.strip()` is `pyStrip` (ASCII behaviour; all data handled by the
  scripts is ASCII).
* A pandas cell that may be NaN is an `Option` value (`none` = NaN);
  pandas DataFrames are Lean lists of records, preserving row order.
* HTTP transport (requests.post / requests.get) is the out-of-scope
  collaborator of spec section 6; its responses enter the embedding as
  oracle function arguments (`create`, `update`).
* Python floats in the revenue estimate are modelled by exact rationals;
  the 0.001 factor is the mathematical 1/1000.
-/

/-- Python `str.lower()` (ASCII case mapping, as the data here is ASCII). -/
def pyLower (s : String) : String := String.mk (s.data.map Char.toLower)

/-- Python `str.strip()`: drop leading and trailing whitespace. -/
def pyStrip (s : String) : String :=
  String.mk (((s.data.dropWhile Char.isWhitespace).reverse.dropWhile Char.isWhitespace).reverse)

/-- Does `hay` start with `needle` (on character lists)? -/
def listStarts : List Char → List Char → Bool
  | [], _ => true
  | _ :: _, [] => false
  | a :: as, b :: bs => a == b && listStarts as bs

/-- Python substring test `needle in hay`, on character lists. -/
def listHasSub (needle : List Char) : List Char → Bool
  | [] => listStarts needle []
  | c :: t => listStarts needle (c :: t) || listHasSub needle t

/-- Python `needle in hay` for strings. -/
def pyIn (needle hay : String) : Bool := listHasSub needle.data hay.data

/-! ## Phone coercion

`leadgen_processor.py` lines 52-67 (`clean_phone_number`); the identical
logic appears in the `phone` branch of `_clean_field_value`
(`universal_processor.py` lines 389-401). -/

/-- Format ten digits as the Python f-string
`f"+1 {cleaned[:3]} {cleaned[3:6]} {cleaned[6:]}"`. -/
def formatPhone (ds : List Char) : String :=
  "+1 " ++ String.mk (ds.take 3) ++ " " ++ String.mk ((ds.drop 3).take 3) ++ " "
    ++ String.mk (ds.drop 6)

/-- `clean_phone_number` of leadgen_processor.py: the `pd.isna(phone) or not
phone` guard is the `""` test (a NaN cell never reaches the embedding as a
string); `re.sub(r"[^\d]", "", str(phone))` is the digit filter. -/
def clean_phone_number (phone : String) : Option String :=
  if phone = "" then none
  else
    let cleaned := phone.data.filter Char.isDigit
    if cleaned.length = 10 then some (formatPhone cleaned)
    else if cleaned.length = 11 ∧ cleaned.head? = some '1' then
      some (formatPhone cleaned.tail)
    else none

/-! ## Email coercion

`leadgen_processor.py` lines 69-88 (`clean_email`). -/

/-- Character class `[a-zA-Z0-9._%+-]` of the validation regex. -/
def isLocalChar (c : Char) : Bool :=
  c.isAlpha || c.isDigit || c == '.' || c == '_' || c == '%' || c == '+' || c == '-'

/-- Character class `[a-zA-Z0-9.-]` of the validation regex. -/
def isDomainChar (c : Char) : Bool := c.isAlpha || c.isDigit || c == '.' || c == '-'

/-- Matcher for the domain part `[a-zA-Z0-9.-]+\.[a-zA-Z]{2,}$` of the
regex in `clean_email`.  A backtracking match of this pattern against `d`
exists exactly when the segment after the LAST dot of `d` is two or more
letters (the `[a-zA-Z]{2,}` tail contains no dot, so the dot it follows
must be the last one) and the part before that dot is non-empty and drawn
from `[a-zA-Z0-9.-]`. -/
def domainTailMatch (d : List Char) : Bool :=
  let b := (d.reverse.takeWhile (fun c => c != '.')).reverse
  if b.length == d.length then false
  else
    let a := d.take (d.length - b.length - 1)
    !a.isEmpty && a.all isDomainChar && decide (2 ≤ b.length) && b.all Char.isAlpha

/-- The regex `^[a-zA-Z0-9._%+-]+@[a-zA-Z0-9.-]+\.[a-zA-Z]{2,}$` of
`clean_email`.  Neither character class contains `@`, so a match splits the
string at its unique `@`.  (`re.match` would also allow one trailing
newline before `$`, but `clean_email` only ever matches stripped strings,
which cannot end in a newline.) -/
def emailRegexMatch (s : List Char) : Bool :=
  let l := s.takeWhile (fun c => c != '@')
  match s.dropWhile (fun c => c != '@') with
  | [] => false
  | _ :: d =>
    !l.isEmpty && l.all isLocalChar && d.all (fun c => c != '@') && domainTailMatch d

/-- `clean_email` of leadgen_processor.py.  `email_str.split('%', 1)[1]`
is the substring after the FIRST percent sign. -/
def clean_email (email : String) : Option String :=
  if email = "" then none
  else
    let s := pyLower (pyStrip email)
    let s :=
      if s.data.contains '%' then
        pyStrip (String.mk ((s.data.dropWhile (fun c => c != '%')).tail))
      else s
    if emailRegexMatch s.data then some s else none

/-- Modelled from the spec's words for claim C2: identical to `clean_email`
except that, per the spec sentence "the substring after the last `%` is
used", the percent split keeps the substring after the LAST percent sign.
Used only to compare the spec's description against the code. -/
def cleanEmailSpecLastPercent (email : String) : Option String :=
  if email = "" then none
  else
    let s := pyLower (pyStrip email)
    let s :=
      if s.data.contains '%' then
        pyStrip (String.mk ((s.data.reverse.takeWhile (fun c => c != '%')).reverse))
      else s
    if emailRegexMatch s.data then some s else none

/-! ## Canonical lead records, dedup and validation

`leadgen_processor.py` lines 266-311 (`deduplicate_leads`,
`validate_leads`).  A record keeps only the columns those passes read;
`none` is a NaN cell. -/

structure Lead where
  name : Option String
  company : Option String
  email : Option String
  phone : Option String
deriving DecidableEq

/-- The combined duplicate mask of `deduplicate_leads` for one row, given
the rows before it (in original order, dropped or not — the pandas masks
are computed on the full frame): the row is marked when its non-NaN email
equals an earlier row's non-NaN email, or its non-NaN (company, name) pair
equals an earlier row's non-NaN pair. -/
def isDupAgainst (prior : List Lead) (l : Lead) : Bool :=
  (l.email.isSome && prior.any (fun p => p.email.isSome && p.email == l.email)) ||
  (l.company.isSome && l.name.isSome &&
    prior.any (fun p =>
      p.company.isSome && p.name.isSome && p.company == l.company && p.name == l.name))

/-- Recursion of `deduplicate_leads`: keep the rows whose duplicate mask is
false; `prior` accumulates every row already scanned (kept or dropped). -/
def dedupGo (prior : List Lead) : List Lead → List Lead
  | [] => []
  | l :: rest =>
    if isDupAgainst prior l then dedupGo (prior ++ [l]) rest
    else l :: dedupGo (prior ++ [l]) rest

/-- `deduplicate_leads` of leadgen_processor.py. -/
def deduplicate_leads (df : List Lead) : List Lead := dedupGo [] df

/-- The row filter of `validate_leads`: name non-NaN, non-blank after
strip, not the `"nan nan"` placeholder, and email or phone non-NaN. -/
def validLeadB (l : Lead) : Bool :=
  (match l.name with
   | some s => pyStrip s != "" && pyStrip s != "nan nan"
   | none => false) &&
  (l.email.isSome || l.phone.isSome)

/-- `validate_leads` of leadgen_processor.py. -/
def validate_leads (df : List Lead) : List Lead := df.filter validLeadB

/-! ## Discovered fields and intelligent CSV mapping

`universal_processor.py` lines 53-60 (the `ClickUpField` dataclass) and
lines 138-207 (`_intelligent_csv_mapping`). -/

/-- The `ClickUpField` dataclass.  `options` is `none` for Python `None`;
when present it is the dropdown's option-name → option-id dict as an
insertion-ordered association list. -/
structure ClickUpField where
  id : String
  name : String
  type : String
  required : Bool
  options : Option (List (String × String))
deriving DecidableEq

/-- The `field_patterns` table of `_intelligent_csv_mapping`
(universal_processor.py lines 145-157). -/
def field_patterns : List (String × List String) :=
  [("email", ["email", "email_address", "e-mail", "mail", "contact_email"]),
   ("company", ["company", "company_name", "organization", "business", "firm"]),
   ("phone", ["phone", "phone_number", "telephone", "mobile", "cell"]),
   ("name", ["name", "full_name", "contact_name", "person", "lead_name"]),
   ("title", ["title", "job_title", "position", "role"]),
   ("website", ["website", "url", "web", "site", "linkedin"]),
   ("notes", ["notes", "comments", "description", "remarks", "lead_notes"]),
   ("source", ["source", "import", "origin", "channel"]),
   ("industry", ["industry", "sector", "business_type", "category"]),
   ("status", ["status", "stage", "opportunity_stage"]),
   ("value", ["value", "estimated_value", "deal_value", "revenue"])]

/-- The substring-containment score of `_intelligent_csv_mapping`:
`min(len(csv_lower), len(field_lower))` when either lowered string contains
the other, else no score. -/
def subScore (csvL fieldL : String) : Nat :=
  if listHasSub csvL.data fieldL.data || listHasSub fieldL.data csvL.data then
    min csvL.data.length fieldL.data.length
  else 0

/-- The category score of `_intelligent_csv_mapping` for one pattern list:
when some keyword occurs in the field name and some keyword occurs in the
CSV header, the score is `max([len(p) for p in patterns if p in csv_lower])`
(the longest keyword literally present in the header); else no score. -/
def patCatScore (csvL fieldL : String) (pats : List String) : Nat :=
  if pats.any (fun p => pyIn p fieldL) && pats.any (fun p => pyIn p csvL) then
    (pats.filter (fun p => pyIn p csvL)).foldl (fun a p => max a p.data.length) 0
  else 0

/-- The overall match score of one field against one header: the best of
the substring rule and of every category rule.  (The Python loop applies
these rules one after the other, each time keeping the strictly better
score; `procField_eq_stepBest` below proves the sequential loop computes
exactly this maximum.) -/
def fieldScore (csvL : String) (f : ClickUpField) : Nat :=
  let fieldL := pyLower f.name
  max (subScore csvL fieldL)
    ((field_patterns.map (fun pc => patCatScore csvL fieldL pc.2)).foldr max 0)

/-- One candidate update of the running best match: replace it when the
new score is strictly greater (`if score > best_score`). -/
def stepBest (f : ClickUpField) (acc : Option ClickUpField × Nat) (score : Nat) :
    Option ClickUpField × Nat :=
  if acc.2 < score then (some f, score) else acc

/-- The body of the per-field scan of `_intelligent_csv_mapping` for one
header: the substring rule, then each category rule, each sequentially
updating the running best match. -/
def procField (csvL : String) (acc : Option ClickUpField × Nat) (f : ClickUpField) :
    Option ClickUpField × Nat :=
  let fieldL := pyLower f.name
  let acc1 :=
    if listHasSub csvL.data fieldL.data || listHasSub fieldL.data csvL.data then
      stepBest f acc (min csvL.data.length fieldL.data.length)
    else acc
  field_patterns.foldl (fun a pc => stepBest f a (patCatScore csvL fieldL pc.2)) acc1

/-- The per-header loop over the discovered fields: an exact
case-insensitive name match assigns the field at once (`break`); otherwise
the best positive-scoring field seen, if any, is assigned after the loop. -/
def mapHeaderGo (csvL : String) : List ClickUpField → Option ClickUpField × Nat → Option String
  | [], acc => acc.1.map (fun f => f.id)
  | f :: rest, acc =>
    if csvL == pyLower f.name then some f.id
    else mapHeaderGo csvL rest (procField csvL acc f)

/-- Map one CSV header (already lowered and stripped) to a field id. -/
def mapHeader (csvL : String) (fields : List ClickUpField) : Option String :=
  mapHeaderGo csvL fields (none, 0)

/-- `_intelligent_csv_mapping` of universal_processor.py: the resulting
header → field-id mapping as an association list over the headers. -/
def intelligent_csv_mapping (fields : List ClickUpField) (csvHeaders : List String) :
    List (String × String) :=
  csvHeaders.filterMap (fun h =>
    (mapHeader (pyStrip (pyLower h)) fields).map (fun fid => (h, fid)))

/-! ## Value coercion engine

`universal_processor.py` lines 376-443 (`_clean_field_value`). -/

/-- Acceptance test of Python `float()` on a string made only of digits and
dots (the `re.sub(r"[^\d.]", "", value)` output): it parses exactly when it
holds at least one digit and at most one dot. -/
def pyFloatAccepts (s : List Char) : Bool :=
  s.any Char.isDigit && decide (s.countP (fun c => c == '.') ≤ 1)

/-- Drop leading zeros of an integer-part digit string, keeping one `0`
when nothing remains. -/
def stripLeadZeros (l : List Char) : List Char :=
  let t := l.dropWhile (fun c => c == '0')
  if t.isEmpty then ['0'] else t

/-- Modelled from the spec: the currency branch "parses as a number"
(`str(float(numeric))`).  Rendered here as the exact normalized decimal
with at least one fractional digit ("1234" becomes "1234.0"); the
IEEE-754 shortest-round-trip rounding Python applies beyond 17 significant
digits, and its switch to scientific notation for huge values, are
floating-point behaviour outside this embedding.  No claim depends on the
rendered digits. -/
def pyFloatRepr (s : List Char) : String :=
  let ip := stripLeadZeros (s.takeWhile (fun c => c != '.'))
  let fp := ((s.dropWhile (fun c => c != '.')).tail.reverse.dropWhile (fun c => c == '0')).reverse
  String.mk ip ++ "." ++ (if fp.isEmpty then "0" else String.mk fp)

/-- `_clean_field_value` of universal_processor.py.  `fieldId` is the
`field_id` argument (`none` for Python `None`); `fields` is
`self.discovered_fields` as an insertion-ordered list (the dropdown branch
scans it for the first field with the given id and type `drop_down`).
The function is a total Lean function: the claim that coercion never
raises is inherent to the embedding, with the single Python `try` (around
`float`) modelled by the `pyFloatAccepts` test. -/
def clean_field_value (value0 : String) (fieldType : String) (fieldId : Option String)
    (fields : List ClickUpField) : Option String :=
  let value := pyStrip value0
  if value = "" || ["nan", "null", "none", ""].contains (pyLower value) then none
  else if fieldType = "email" then
    if value.data.contains '@' && value.data.contains '.' then some (pyLower value) else none
  else if fieldType = "phone" then clean_phone_number value
  else if fieldType = "url" then
    if !(listStarts "http://".data value.data || listStarts "https://".data value.data) then
      some ("https://" ++ value)
    else some value
  else if fieldType = "drop_down" then
    match fields.find? (fun f => fieldId == some f.id && f.type == "drop_down") with
    | some fi =>
      match fi.options with
      | some opts =>
        match opts.find? (fun o => pyLower value == pyLower o.1) with
        | some o => some o.2
        | none =>
          match opts.find? (fun o =>
              listHasSub (pyLower value).data (pyLower o.1).data ||
              listHasSub (pyLower o.1).data (pyLower value).data) with
          | some o => some o.2
          | none => none
      | none => none
    | none => none
  else if fieldType = "currency" then
    let numeric := value.data.filter (fun c => c.isDigit || c == '.')
    if pyFloatAccepts numeric then some (pyFloatRepr numeric) else some "0"
  else some value

/-! ## Two-phase upload

`universal_processor.py` lines 445-526 (`_upload_to_clickup`).  The HTTP
round trips are the collaborator interface of spec section 6: `create`
returns the new task id of a 200 response to the POST (or `none`), and
`update` returns whether the PUT of the phone payload got a 200. -/

structure CustomFieldEntry where
  id : String
  value : String
deriving DecidableEq

structure TaskPayload where
  name : String
  description : String
  custom_fields : List CustomFieldEntry
deriving DecidableEq

/-- Everything one iteration of the upload loop did for one lead. -/
structure UploadResult where
  createPayload : TaskPayload
  createdTask : Option String
  phoneUpdate : Option (String × List CustomFieldEntry × Bool)
  countedSuccess : Bool
deriving DecidableEq

/-- Is `fid` the id of a phone-typed discovered field?  (The inner scan
`for field_name, field in self.discovered_fields.items(): if field.id ==
field_id and field.type == 'phone'`.) -/
def isPhoneFieldId (fields : List ClickUpField) (fid : String) : Bool :=
  fields.any (fun f => f.id == fid && f.type == "phone")

/-- The phone-extraction scan over `lead_data_copy.items()`: the first
entry whose field id belongs to a phone-typed field (the loop breaks
there). -/
def findPhoneEntry (fields : List ClickUpField) : List (String × String) → Option (String × String)
  | [] => none
  | e :: rest => if isPhoneFieldId fields e.1 then some e else findPhoneEntry fields rest

/-- The custom fields kept for the create call: the lead's entries with
the phone entry (`del lead_data_copy[field_id]`) removed. -/
def uploadRest (fields : List ClickUpField) (lead : List (String × String)) :
    List (String × String) :=
  match findPhoneEntry fields lead with
  | some pe => lead.eraseP (fun e => e.1 == pe.1)
  | none => lead

/-- The step-1 task payload of `_upload_to_clickup` for lead number `i`:
name `"Lead {i}"`, description `"Imported lead {i}"`, and every non-phone
custom field. -/
def uploadCreatePayload (fields : List ClickUpField) (i : Nat)
    (lead : List (String × String)) : TaskPayload :=
  ⟨"Lead " ++ toString i, "Imported lead " ++ toString i,
    (uploadRest fields lead).map (fun e => ⟨e.1, e.2⟩)⟩

/-- One iteration of the loop of `_upload_to_clickup` for lead number `i`
(`enumerate(leads, 1)`): extract the phone entry if any, create the task
from the remaining custom fields, then — only when the create succeeded —
send the phone-only update, counting the lead as a success whether or not
that update succeeded. -/
def upload_lead (fields : List ClickUpField) (create : TaskPayload → Option String)
    (update : String → List CustomFieldEntry → Bool) (i : Nat)
    (lead : List (String × String)) : UploadResult :=
  let payload := uploadCreatePayload fields i lead
  match create payload with
  | none => ⟨payload, none, none, false⟩
  | some tid =>
    match findPhoneEntry fields lead with
    | some pe =>
      ⟨payload, some tid, some (tid, [⟨pe.1, pe.2⟩], update tid [⟨pe.1, pe.2⟩]), true⟩
    | none => ⟨payload, some tid, none, true⟩

/-- The loop of `_upload_to_clickup` from lead number `i` on, returning
`success_count`. -/
def uploadBatchGo (fields : List ClickUpField) (create : TaskPayload → Option String)
    (update : String → List CustomFieldEntry → Bool) :
    Nat → List (List (String × String)) → Nat
  | _, [] => 0
  | i, l :: rest =>
    (if (upload_lead fields create update i l).countedSuccess then 1 else 0) +
      uploadBatchGo fields create update (i + 1) rest

/-- `_upload_to_clickup` of universal_processor.py: process every lead in
order, numbering from 1. -/
def upload_to_clickup_universal (fields : List ClickUpField)
    (create : TaskPayload → Option String)
    (update : String → List CustomFieldEntry → Bool)
    (leads : List (List (String × String))) : Nat :=
  uploadBatchGo fields create update 1 leads

/-! ## Board-structure discovery

`universal_processor.py` lines 83-136 (`_discover_board_structure`); the
same per-field logic appears in `_discover_fields_from_tasks` of
universal_discovery.py lines 119-146.  A sampled task is its
`custom_fields` list; each raw field carries the JSON keys the code reads
(`typeConfig` is `none` when the `'type_config'` key is absent, and its
option list is `field['type_config'].get('options', [])`). -/

structure RawOption where
  name : String
  id : String
deriving DecidableEq

structure RawField where
  id : String
  name : String
  type : String
  required : Bool
  typeConfig : Option (List RawOption)
deriving DecidableEq

/-- Python dict assignment `d[k] = v` on an insertion-ordered association
list: overwrite in place when the key exists, else append. -/
def dictInsert {β : Type} (acc : List (String × β)) (k : String) (v : β) :
    List (String × β) :=
  if acc.any (fun e => e.1 == k) then
    acc.map (fun e => if e.1 == k then (k, v) else e)
  else acc ++ [(k, v)]

/-- Build the `options` dict `{option['name']: option['id']}` of a dropdown
field. -/
def buildOptions (l : List RawOption) : List (String × String) :=
  l.foldl (fun acc o => dictInsert acc o.name o.id) []

/-- Turn one raw custom-field entry into a stored `ClickUpField`:
`options` is populated (possibly as an empty dict) exactly when the type is
`drop_down` and a `type_config` is present. -/
def fieldOfRaw (f : RawField) : ClickUpField :=
  let opts := match f.typeConfig with
    | some cfg => if f.type == "drop_down" then some (buildOptions cfg) else none
    | none => none
  ⟨f.id, f.name, f.type, f.required, opts⟩

/-- `_discover_board_structure` of universal_processor.py applied to the
sampled tasks: fold every custom field of every task into the
name-keyed dict (last writer wins). -/
def discover_board_structure (tasks : List (List RawField)) : List (String × ClickUpField) :=
  tasks.foldl (fun acc task => task.foldl (fun acc f => dictInsert acc f.name (fieldOfRaw f)) acc) []

/-! ## Revenue-based deal-value estimation

`leadgen_processor.py` lines 105-114 (`estimate_value_from_revenue`) and
the estimated-value assignment of `process_george_cto_csv` (lines
175-179).  Revenue cells are exact rationals (`none` = NaN). -/

/-- `estimate_value_from_revenue`: NaN or non-positive revenue gets the
shared default 5000; otherwise `int(revenue * 0.001)` clamped into
[1000, 500000] (`int` truncates, which on a positive value is the floor). -/
def estimate_value_from_revenue : Option ℚ → Int
  | none => 5000
  | some r => if r ≤ 0 then 5000 else max 1000 (min 500000 (Int.floor (r * (1 / 1000))))

/-- The `estimated_value` column built by `process_george_cto_csv`: when
the `company_revenue` column has any non-NaN cell, every row gets
`estimate_value_from_revenue` of its own cell; otherwise every row gets
the flat CTO default 7500. -/
def george_cto_estimated_values (revenues : List (Option ℚ)) : List Int :=
  if revenues.any (fun r => r.isSome) then revenues.map estimate_value_from_revenue
  else revenues.map (fun _ => 7500)

/-! ## Leadgen upload truncation

`leadgen_processor.py` lines 381-420 (`upload_to_clickup`).  The payload
built by `create_clickup_task_payload` and the POST of it are consumed
through the collaborator boundary as the oracle `create`, which returns
the created task id of a 200 response (or `none`). -/

/-- Recursion producing the batch slices `df.iloc[i:i+batch_size]` for
`i in range(0, len(df), batch_size)`: peel `batchSize` rows at a time.
The fuel argument (instantiated with the list length, which bounds the
number of peels) only makes the recursion structural. -/
def batchChunksGo {α : Type} (bs : Nat) : Nat → List α → List (List α)
  | _, [] => []
  | 0, _ :: _ => []
  | fuel + 1, x :: xs =>
    match bs with
    | 0 => []
    | b + 1 => (x :: xs).take (b + 1) :: batchChunksGo bs fuel (xs.drop b)

/-- The batch slices of `upload_to_clickup`.  For `batchSize = 0` Python's
`range` raises before any iteration, so no lead is ever posted; that is
modelled as an empty batch list. -/
def batchChunks {α : Type} (bs : Nat) (l : List α) : List (List α) :=
  batchChunksGo bs l.length l

/-- `upload_to_clickup` of leadgen_processor.py: `df = df.head(3)` before
any call, then for each batch, for each lead, one create call, collecting
the ids of the successful creates. -/
def upload_to_clickup {α : Type} (create : α → Option String) (batchSize : Nat)
    (df : List α) : List String :=
  let df := df.take 3
  (batchChunks batchSize df).foldl (fun acc batch => acc ++ batch.filterMap create) []

/-! ## Theorems -/

/-- The formatted phone string splits into groups of 3, 3 and 4 digits
whose concatenation is the input. -/
theorem formatPhone_parts (ds : List Char) (h : ds.length = 10) :
    ∃ g1 g2 g3 : List Char,
      formatPhone ds =
        "+1 " ++ String.mk g1 ++ " " ++ String.mk g2 ++ " " ++ String.mk g3 ∧
      g1.length = 3 ∧ g2.length = 3 ∧ g3.length = 4 ∧ g1 ++ (g2 ++ g3) = ds := by
  refine ⟨ds.take 3, (ds.drop 3).take 3, ds.drop 6, rfl, ?_, ?_, ?_, ?_⟩
  · rw [List.length_take, h]; decide
  · rw [List.length_take, List.length_drop, h]; decide
  · rw [List.length_drop, h]
  · have h6 : ds.drop 6 = (ds.drop 3).drop 3 := by
      rw [List.drop_drop]
    rw [h6, List.take_append_drop, List.take_append_drop]

/-- Claim C1 (confirmed): phone coercion strips all non-digit characters;
exactly 10 remaining digits are formatted as three space-separated groups
of 3, 3 and 4 digits behind a `+1 ` tag; exactly 11 digits with a leading
`1` drop that digit and format the remaining 10 the same way; any other
digit count (and 11 digits without a leading `1`) omits the field; and the
three concrete example inputs of the claim behave as stated. -/
theorem phone_coercion_c1 :
    (∀ s : String,
      ((s.data.filter Char.isDigit).length = 10 →
        ∃ g1 g2 g3 : List Char,
          clean_phone_number s =
            some ("+1 " ++ String.mk g1 ++ " " ++ String.mk g2 ++ " " ++ String.mk g3) ∧
          g1.length = 3 ∧ g2.length = 3 ∧ g3.length = 4 ∧
          g1 ++ (g2 ++ g3) = s.data.filter Char.isDigit) ∧
      ((s.data.filter Char.isDigit).length = 11 →
        (s.data.filter Char.isDigit).head? = some '1' →
        ∃ g1 g2 g3 : List Char,
          clean_phone_number s =
            some ("+1 " ++ String.mk g1 ++ " " ++ String.mk g2 ++ " " ++ String.mk g3) ∧
          g1.length = 3 ∧ g2.length = 3 ∧ g3.length = 4 ∧
          g1 ++ (g2 ++ g3) = (s.data.filter Char.isDigit).tail) ∧
      ((s.data.filter Char.isDigit).length ≠ 10 →
        (s.data.filter Char.isDigit).length ≠ 11 → clean_phone_number s = none) ∧
      ((s.data.filter Char.isDigit).length = 11 →
        (s.data.filter Char.isDigit).head? ≠ some '1' → clean_phone_number s = none)) ∧
    clean_phone_number "(555) 123-4567" = some "+1 555 123 4567" ∧
    clean_phone_number "15551234567" = some "+1 555 123 4567" ∧
    clean_phone_number "123" = none := by
  refine ⟨fun s => ⟨?_, ?_, ?_, ?_⟩, by decide, by decide, by decide⟩
  · intro h10
    have hs : ¬s = "" := by
      intro he; subst he; revert h10; decide
    obtain ⟨g1, g2, g3, hfmt, h1, h2, h3, h4⟩ := formatPhone_parts _ h10
    refine ⟨g1, g2, g3, ?_, h1, h2, h3, h4⟩
    simp only [clean_phone_number, if_neg hs, if_pos h10, hfmt]
  · intro h11 hhd
    have hs : ¬s = "" := by
      intro he; subst he; revert h11; decide
    have ht : (s.data.filter Char.isDigit).tail.length = 10 := by
      rw [List.length_tail, h11]
    obtain ⟨g1, g2, g3, hfmt, h1, h2, h3, h4⟩ := formatPhone_parts _ ht
    refine ⟨g1, g2, g3, ?_, h1, h2, h3, h4⟩
    have hne10 : ¬(s.data.filter Char.isDigit).length = 10 := by omega
    simp only [clean_phone_number, if_neg hs, if_neg hne10, if_pos (And.intro h11 hhd), hfmt]
  · intro hne10 hne11
    by_cases hs : s = ""
    · simp [clean_phone_number, hs]
    · have hcond : ¬((s.data.filter Char.isDigit).length = 11 ∧
          (s.data.filter Char.isDigit).head? = some '1') := fun h => hne11 h.1
      simp only [clean_phone_number, if_neg hs, if_neg hne10, if_neg hcond]
  · intro h11 hhd
    have hs : ¬s = "" := by
      intro he; subst he; revert h11; decide
    have hne10 : ¬(s.data.filter Char.isDigit).length = 10 := by omega
    have hcond : ¬((s.data.filter Char.isDigit).length = 11 ∧
        (s.data.filter Char.isDigit).head? = some '1') := fun h => hhd h.2
    simp only [clean_phone_number, if_neg hs, if_neg hne10, if_neg hcond]

/-- Witness for `phone_coercion_c1`: its 10-digit case applied to a
concrete input. -/
theorem phone_coercion_c1_witness :
    ∃ g1 g2 g3 : List Char,
      clean_phone_number "5551234567" =
        some ("+1 " ++ String.mk g1 ++ " " ++ String.mk g2 ++ " " ++ String.mk g3) ∧
      g1.length = 3 ∧ g2.length = 3 ∧ g3.length = 4 ∧
      g1 ++ (g2 ++ g3) = "5551234567".data.filter Char.isDigit :=
  (phone_coercion_c1.1 "5551234567").1 (by decide)

/-- Claim C2 counterexample: on an input holding two percent signs the code
keeps the substring after the FIRST one — here `"50% jane@x.co"`, which
fails validation, so the field is omitted — while the claim's
last-percent rule would keep and return `"jane@x.co"`. -/
theorem email_coercion_c2_counterexample :
    clean_email "97% 50% jane@x.co" = none ∧
    cleanEmailSpecLastPercent "97% 50% jane@x.co" = some "jane@x.co" ∧
    clean_email "a%b%c@d.co" = some "b%c@d.co" ∧
    cleanEmailSpecLastPercent "a%b%c@d.co" = some "c@d.co" := by
  exact ⟨by decide, by decide, by decide, by decide⟩

/-- Characters before the first failing position are consumed by
`dropWhile`. -/
theorem dropWhile_all_append {α : Type} (p : α → Bool) (pre post : List α)
    (h : ∀ a ∈ pre, p a = true) :
    (pre ++ post).dropWhile p = post.dropWhile p := by
  induction pre with
  | nil => rfl
  | cons a t ih =>
    have ha : p a = true := h a (List.mem_cons_self a t)
    simp only [List.cons_append, List.dropWhile_cons, ha, if_true]
    exact ih (fun b hb => h b (List.mem_cons_of_mem a hb))

/-- Claim C2 (corrected: the split keeps the substring after the FIRST
percent sign, not the last): email coercion lowercases and strips, splits
off everything up to and including the first `%` when one is present
(stripping the remainder), validates against the `local@domain.tld` regex
and omits invalid values; any returned value passes the regex, and the
claim's two concrete examples behave as stated. -/
theorem email_coercion_c2 :
    (∀ s r : String, clean_email s = some r → emailRegexMatch r.data = true) ∧
    (∀ s : String, (pyLower (pyStrip s)).data.contains '%' = false →
      clean_email s =
        if emailRegexMatch (pyLower (pyStrip s)).data then some (pyLower (pyStrip s))
        else none) ∧
    (∀ (s : String) (pre post : List Char),
      (pyLower (pyStrip s)).data = pre ++ '%' :: post → (∀ a ∈ pre, a ≠ '%') →
      clean_email s =
        if emailRegexMatch (pyStrip (String.mk post)).data then some (pyStrip (String.mk post))
        else none) ∧
    clean_email "97% Jane@Example.COM " = some "jane@example.com" ∧
    clean_email "not-an-email" = none := by
  refine ⟨?_, ?_, ?_, by decide, by decide⟩
  · intro s r h
    by_cases hs : s = ""
    · have hnone : clean_email "" = none := by decide
      rw [hs, hnone] at h
      exact Option.noConfusion h
    · simp only [clean_email, if_neg hs] at h
      split at h
      · split at h
        · cases h; assumption
        · exact Option.noConfusion h
      · split at h
        · cases h; assumption
        · exact Option.noConfusion h
  · intro s hnp
    by_cases hs : s = ""
    · subst hs; decide
    · simp only [clean_email, if_neg hs, hnp, Bool.false_eq_true, if_false]
  · intro s pre post hsplit hpre
    by_cases hs : s = ""
    · exfalso
      rw [hs] at hsplit
      have h0 : (pyLower (pyStrip "")).data = [] := by decide
      rw [h0] at hsplit
      have := congrArg List.length hsplit
      simp at this
      omega
    · have hcont : (pyLower (pyStrip s)).data.contains '%' = true := by
        rw [hsplit]
        simp
      have hdrop : (pyLower (pyStrip s)).data.dropWhile (fun c => c != '%') = '%' :: post := by
        rw [hsplit, dropWhile_all_append]
        · simp [List.dropWhile_cons]
        · intro a ha
          simp [hpre a ha]
      simp only [clean_email, if_neg hs, hcont, if_true, hdrop, List.tail_cons]

/-- Witness for `email_coercion_c2`: its regex guarantee and its
first-percent case applied at concrete inputs. -/
theorem email_coercion_c2_witness :
    emailRegexMatch "jane@example.com".data = true ∧
    clean_email "a%b%c@d.co" =
      (if emailRegexMatch (pyStrip (String.mk "b%c@d.co".data)).data then
        some (pyStrip (String.mk "b%c@d.co".data))
      else none) :=
  ⟨email_coercion_c2.1 "97% Jane@Example.COM " "jane@example.com" (by decide),
   email_coercion_c2.2.2.1 "a%b%c@d.co" "a".data "b%c@d.co".data (by decide) (by decide)⟩

/-- The dedup recursion returns a subsequence of its input. -/
theorem dedupGo_sublist (rest : List Lead) :
    ∀ prior : List Lead, (dedupGo prior rest).Sublist rest := by
  induction rest with
  | nil => intro prior; simp [dedupGo]
  | cons l t ih =>
    intro prior
    simp only [dedupGo]
    split
    · exact (ih _).cons l
    · exact (ih _).cons₂ l

/-- Counting survivors of the dedup recursion that satisfy a key predicate
`k`, when matching any earlier scanned row on `k` marks a row as a
duplicate: no survivor matches if a scanned row already did, at most one
otherwise. -/
theorem dedupGo_countP (k : Lead → Bool)
    (hk : ∀ prior l, k l = true → prior.any k = true → isDupAgainst prior l = true)
    (rest : List Lead) :
    ∀ prior : List Lead,
      (prior.any k = true → (dedupGo prior rest).countP k = 0) ∧
      (prior.any k = false → (dedupGo prior rest).countP k ≤ 1) := by
  induction rest with
  | nil => intro prior; simp [dedupGo]
  | cons l t ih =>
    intro prior
    have hany : ∀ b : Bool, (prior ++ [l]).any k = (prior.any k || k l) := by
      intro b; simp [List.any_append]
    constructor
    · intro hp
      have hpl : (prior ++ [l]).any k = true := by
        simp [List.any_append, hp]
      cases hkl : k l with
      | true =>
        have hdup := hk prior l hkl hp
        simp only [dedupGo, hdup, if_true]
        exact (ih _).1 hpl
      | false =>
        simp only [dedupGo]
        split
        · exact (ih _).1 hpl
        · rw [List.countP_cons, hkl]
          simpa using (ih _).1 hpl
    · intro hp
      cases hkl : k l with
      | true =>
        have hpl : (prior ++ [l]).any k = true := by
          simp [List.any_append, hkl]
        simp only [dedupGo]
        split
        · exact le_trans (le_of_eq ((ih _).1 hpl)) (by omega)
        · rw [List.countP_cons, hkl]
          simp [(ih _).1 hpl]
      | false =>
        have hpl : (prior ++ [l]).any k = false := by
          simp [List.any_append, hp, hkl]
        simp only [dedupGo]
        split
        · exact (ih _).2 hpl
        · rw [List.countP_cons, hkl]
          simpa using (ih _).2 hpl

/-- A row that entered the dedup recursion and did not survive collides on
email or on (company, name) with a different row of the full frame. -/
theorem dedupGo_dropped (rest : List Lead) :
    ∀ (prior : List Lead) (l : Lead), l ∈ rest → l ∉ prior →
      l ∉ dedupGo prior rest →
      (l.email.isSome = true ∧ ∃ p ∈ prior ++ rest, p ≠ l ∧ p.email = l.email) ∨
      (l.company.isSome = true ∧ l.name.isSome = true ∧
        ∃ p ∈ prior ++ rest, p ≠ l ∧ p.company = l.company ∧ p.name = l.name) := by
  induction rest with
  | nil => intro prior l hmem; exact absurd hmem (List.not_mem_nil l)
  | cons x t ih =>
    intro prior l hmem hnp hout
    by_cases hlx : l = x
    · subst hlx
      cases hdup : isDupAgainst prior l with
      | false =>
        exfalso
        simp only [dedupGo, hdup, Bool.false_eq_true, if_false] at hout
        exact hout (List.mem_cons_self _ _)
      | true =>
        rw [isDupAgainst, Bool.or_eq_true] at hdup
        rcases hdup with hleft | hright
        · rw [Bool.and_eq_true, List.any_eq_true] at hleft
          obtain ⟨he, p, hp, hpb⟩ := hleft
          simp only [Bool.and_eq_true, beq_iff_eq] at hpb
          left
          exact ⟨he, p, List.mem_append_left _ hp, fun hpl => hnp (hpl ▸ hp), hpb.2⟩
        · rw [Bool.and_eq_true] at hright
          obtain ⟨hcn, hany⟩ := hright
          rw [Bool.and_eq_true] at hcn
          rw [List.any_eq_true] at hany
          obtain ⟨p, hp, hpb⟩ := hany
          simp only [Bool.and_eq_true, beq_iff_eq] at hpb
          right
          exact ⟨hcn.1, hcn.2, p, List.mem_append_left _ hp, fun hpl => hnp (hpl ▸ hp),
            hpb.1.2, hpb.2⟩
    · have hmt : l ∈ t := by
        rcases List.mem_cons.mp hmem with h | h
        · exact absurd h hlx
        · exact h
      have hnp2 : l ∉ prior ++ [x] := by
        intro hin
        rcases List.mem_append.mp hin with h | h
        · exact hnp h
        · exact hlx (List.mem_singleton.mp h)
      have hout2 : l ∉ dedupGo (prior ++ [x]) t := by
        intro hin
        apply hout
        simp only [dedupGo]
        split
        · exact hin
        · exact List.mem_cons_of_mem _ hin
      have := ih (prior ++ [x]) l hmt hnp2 hout2
      rw [List.append_cons]
      exact this

/-- Splitting the dedup recursion at one position: the row there is kept
exactly when its duplicate mask against everything scanned before it is
false. -/
theorem dedupGo_append (l : Lead) (L2 : List Lead) :
    ∀ (L1 prior : List Lead),
      dedupGo prior (L1 ++ l :: L2) =
        dedupGo prior L1 ++
          (if isDupAgainst (prior ++ L1) l = true then dedupGo (prior ++ L1 ++ [l]) L2
           else l :: dedupGo (prior ++ L1 ++ [l]) L2) := by
  intro L1
  induction L1 with
  | nil =>
    intro prior
    simp only [List.nil_append, dedupGo, List.append_nil]
  | cons x t ih =>
    intro prior
    simp only [List.cons_append, dedupGo, List.append_eq]
    rw [ih (prior ++ [x])]
    have h1 : prior ++ [x] ++ t = prior ++ x :: t := by
      rw [List.append_assoc]
      rfl
    rw [h1]
    by_cases hd : isDupAgainst prior x = true
    · rw [if_pos hd, if_pos hd]
    · rw [if_neg hd, if_neg hd, List.cons_append]

/-- The positional characterization of `deduplicate_leads`: the output
around any fixed position splits there, and the row at that position
survives exactly when its duplicate mask against the rows before it is
false. -/
theorem dedup_at_position (L1 L2 : List Lead) (l : Lead) :
    deduplicate_leads (L1 ++ l :: L2) =
      deduplicate_leads L1 ++
        (if isDupAgainst L1 l = true then dedupGo (L1 ++ [l]) L2
         else l :: dedupGo (L1 ++ [l]) L2) :=
  dedupGo_append l L2 L1 []

/-- Claim C4 counterexample: in this three-row frame, rows 2 and 3 share
the non-empty email `a@x.co`, yet NEITHER survives — row 2 is dropped by
the (company, name) rule and row 3 by the email rule (whose first
occurrence, row 2, was itself dropped) — refuting "among all records
sharing an equal non-empty email, exactly one (the first) survives" and
"the first occurrence in input order is always kept". -/
theorem dedup_c4_counterexample :
    deduplicate_leads
        [⟨some "n", some "c", none, none⟩,
         ⟨some "n", some "c", some "a@x.co", none⟩,
         ⟨some "m", some "d", some "a@x.co", none⟩] =
      [⟨some "n", some "c", none, none⟩] ∧
    ([⟨some "n", some "c", none, none⟩,
      ⟨some "n", some "c", some "a@x.co", none⟩,
      ⟨some "m", some "d", some "a@x.co", none⟩] : List Lead).countP
        (fun l => l.email == some "a@x.co") = 2 ∧
    (deduplicate_leads
        [⟨some "n", some "c", none, none⟩,
         ⟨some "n", some "c", some "a@x.co", none⟩,
         ⟨some "m", some "d", some "a@x.co", none⟩]).countP
        (fun l => l.email == some "a@x.co") = 0 := by
  exact ⟨by decide, by decide, by decide⟩

/-- Claim C4 (corrected: among records sharing an equal non-empty email,
AT MOST one survives and any survivor is the first occurrence, but no
record of the group need survive when its first occurrence is dropped by
the other rule; same for equal non-empty (company, name) pairs): the
dedup output is a subsequence of the input; it holds at most one record
per non-empty email and at most one per non-empty (company, name) pair;
every dropped record collides on email or on (company, name) with a
distinct record of the input; and positionally the record at any
position is dropped IF AND ONLY IF its duplicate mask against the
records before it is set (the output around that position splits as
stated), with the collision and no-collision corollaries spelled out —
so a record with an earlier equal present email or earlier equal present
pair is dropped at its position, and a record with neither is kept,
i.e. every survivor is the first occurrence of its keys. -/
theorem dedup_c4 :
    (∀ L : List Lead, (deduplicate_leads L).Sublist L) ∧
    (∀ (L : List Lead) (e : String),
      (deduplicate_leads L).countP (fun l => l.email == some e) ≤ 1) ∧
    (∀ (L : List Lead) (c n : String),
      (deduplicate_leads L).countP
        (fun l => l.company == some c && l.name == some n) ≤ 1) ∧
    (∀ (L : List Lead) (l : Lead), l ∈ L → l ∉ deduplicate_leads L →
      (l.email.isSome = true ∧ ∃ p ∈ L, p ≠ l ∧ p.email = l.email) ∨
      (l.company.isSome = true ∧ l.name.isSome = true ∧
        ∃ p ∈ L, p ≠ l ∧ p.company = l.company ∧ p.name = l.name)) ∧
    (∀ (L1 L2 : List Lead) (l : Lead),
      deduplicate_leads (L1 ++ l :: L2) =
        deduplicate_leads L1 ++
          (if isDupAgainst L1 l = true then dedupGo (L1 ++ [l]) L2
           else l :: dedupGo (L1 ++ [l]) L2)) ∧
    (∀ (L1 L2 : List Lead) (l p : Lead), p ∈ L1 →
      l.email.isSome = true → p.email.isSome = true → p.email = l.email →
      deduplicate_leads (L1 ++ l :: L2) =
        deduplicate_leads L1 ++ dedupGo (L1 ++ [l]) L2) ∧
    (∀ (L1 L2 : List Lead) (l p : Lead), p ∈ L1 →
      l.company.isSome = true → l.name.isSome = true →
      p.company.isSome = true → p.name.isSome = true →
      p.company = l.company → p.name = l.name →
      deduplicate_leads (L1 ++ l :: L2) =
        deduplicate_leads L1 ++ dedupGo (L1 ++ [l]) L2) ∧
    (∀ (L1 L2 : List Lead) (l : Lead),
      (∀ p ∈ L1, ¬(l.email.isSome = true ∧ p.email.isSome = true ∧ p.email = l.email)) →
      (∀ p ∈ L1, ¬(l.company.isSome = true ∧ l.name.isSome = true ∧
        p.company.isSome = true ∧ p.name.isSome = true ∧
        p.company = l.company ∧ p.name = l.name)) →
      deduplicate_leads (L1 ++ l :: L2) =
        deduplicate_leads L1 ++ l :: dedupGo (L1 ++ [l]) L2) := by
  refine ⟨fun L => dedupGo_sublist L [], ?_, ?_, ?_, ?_, ?_, ?_, ?_⟩
  · intro L e
    have hk : ∀ (prior : List Lead) (l : Lead),
        (l.email == some e) = true →
        prior.any (fun p => p.email == some e) = true → isDupAgainst prior l = true := by
      intro prior l hl hp
      rw [beq_iff_eq] at hl
      simp only [List.any_eq_true, beq_iff_eq] at hp
      obtain ⟨p, hpmem, hpe⟩ := hp
      simp only [isDupAgainst, Bool.or_eq_true, Bool.and_eq_true, List.any_eq_true, beq_iff_eq]
      exact Or.inl ⟨by rw [hl]; rfl, p, hpmem, by rw [hpe]; rfl, by rw [hpe, hl]⟩
    exact (dedupGo_countP _ hk L []).2 rfl
  · intro L c n
    have hk : ∀ (prior : List Lead) (l : Lead),
        (l.company == some c && l.name == some n) = true →
        prior.any (fun p => p.company == some c && p.name == some n) = true →
        isDupAgainst prior l = true := by
      intro prior l hl hp
      simp only [Bool.and_eq_true, beq_iff_eq] at hl
      simp only [List.any_eq_true, Bool.and_eq_true, beq_iff_eq] at hp
      obtain ⟨p, hpmem, hpc, hpn⟩ := hp
      simp only [isDupAgainst, Bool.or_eq_true, Bool.and_eq_true, List.any_eq_true, beq_iff_eq]
      refine Or.inr ⟨⟨by rw [hl.1]; rfl, by rw [hl.2]; rfl⟩, p, hpmem, ?_⟩
      exact ⟨⟨⟨by rw [hpc]; rfl, by rw [hpn]; rfl⟩, by rw [hpc, hl.1]⟩, by rw [hpn, hl.2]⟩
    exact (dedupGo_countP _ hk L []).2 rfl
  · intro L l hmem hout
    have := dedupGo_dropped L [] l hmem (List.not_mem_nil l) hout
    simpa using this
  · intro L1 L2 l
    exact dedup_at_position L1 L2 l
  · intro L1 L2 l p hp hle hpe hpeq
    have hdup : isDupAgainst L1 l = true := by
      rw [isDupAgainst, Bool.or_eq_true]
      left
      rw [Bool.and_eq_true, List.any_eq_true]
      refine ⟨hle, p, hp, ?_⟩
      rw [Bool.and_eq_true, beq_iff_eq]
      exact ⟨hpe, hpeq⟩
    rw [dedup_at_position, if_pos hdup]
  · intro L1 L2 l p hp hlc hln hpc hpn hceq hneq
    have hdup : isDupAgainst L1 l = true := by
      rw [isDupAgainst, Bool.or_eq_true]
      right
      rw [Bool.and_eq_true]
      constructor
      · rw [Bool.and_eq_true]
        exact ⟨hlc, hln⟩
      · rw [List.any_eq_true]
        refine ⟨p, hp, ?_⟩
        simp only [Bool.and_eq_true, beq_iff_eq]
        exact ⟨⟨⟨hpc, hpn⟩, hceq⟩, hneq⟩
    rw [dedup_at_position, if_pos hdup]
  · intro L1 L2 l hne hnp
    have hdup : ¬isDupAgainst L1 l = true := by
      rw [isDupAgainst, Bool.or_eq_true]
      rintro (hleft | hright)
      · rw [Bool.and_eq_true, List.any_eq_true] at hleft
        obtain ⟨hle, p, hp, hpb⟩ := hleft
        simp only [Bool.and_eq_true, beq_iff_eq] at hpb
        exact hne p hp ⟨hle, hpb.1, hpb.2⟩
      · rw [Bool.and_eq_true] at hright
        obtain ⟨hcn, hany⟩ := hright
        rw [Bool.and_eq_true] at hcn
        rw [List.any_eq_true] at hany
        obtain ⟨p, hp, hpb⟩ := hany
        simp only [Bool.and_eq_true, beq_iff_eq] at hpb
        exact hnp p hp ⟨hcn.1, hcn.2, hpb.1.1.1, hpb.1.1.2, hpb.1.2, hpb.2⟩
    rw [dedup_at_position, if_neg hdup]

/-- Witness for `dedup_c4`: its dropped-record case applied to the middle
row of the counterexample frame, and its email-collision positional case
applied to the third row (whose earlier equal email belongs to the
already-dropped second row). -/
theorem dedup_c4_witness :
    (((⟨some "n", some "c", some "a@x.co", none⟩ : Lead).email.isSome = true ∧
      ∃ p ∈ [(⟨some "n", some "c", none, none⟩ : Lead),
             ⟨some "n", some "c", some "a@x.co", none⟩,
             ⟨some "m", some "d", some "a@x.co", none⟩],
        p ≠ ⟨some "n", some "c", some "a@x.co", none⟩ ∧
        p.email = (⟨some "n", some "c", some "a@x.co", none⟩ : Lead).email) ∨
    ((⟨some "n", some "c", some "a@x.co", none⟩ : Lead).company.isSome = true ∧
      (⟨some "n", some "c", some "a@x.co", none⟩ : Lead).name.isSome = true ∧
      ∃ p ∈ [(⟨some "n", some "c", none, none⟩ : Lead),
             ⟨some "n", some "c", some "a@x.co", none⟩,
             ⟨some "m", some "d", some "a@x.co", none⟩],
        p ≠ ⟨some "n", some "c", some "a@x.co", none⟩ ∧
        p.company = (⟨some "n", some "c", some "a@x.co", none⟩ : Lead).company ∧
        p.name = (⟨some "n", some "c", some "a@x.co", none⟩ : Lead).name)) ∧
    deduplicate_leads
        ([⟨some "n", some "c", none, none⟩, ⟨some "n", some "c", some "a@x.co", none⟩] ++
          ⟨some "m", some "d", some "a@x.co", none⟩ :: []) =
      deduplicate_leads
          [⟨some "n", some "c", none, none⟩, ⟨some "n", some "c", some "a@x.co", none⟩] ++
        dedupGo
          ([⟨some "n", some "c", none, none⟩, ⟨some "n", some "c", some "a@x.co", none⟩] ++
            [⟨some "m", some "d", some "a@x.co", none⟩]) [] :=
  ⟨dedup_c4.2.2.2.1
    [⟨some "n", some "c", none, none⟩,
     ⟨some "n", some "c", some "a@x.co", none⟩,
     ⟨some "m", some "d", some "a@x.co", none⟩]
    ⟨some "n", some "c", some "a@x.co", none⟩ (by decide) (by decide),
   dedup_c4.2.2.2.2.2.1
    [⟨some "n", some "c", none, none⟩, ⟨some "n", some "c", some "a@x.co", none⟩] []
    ⟨some "m", some "d", some "a@x.co", none⟩
    ⟨some "n", some "c", some "a@x.co", none⟩ (by decide) rfl rfl rfl⟩

/-- Claim C5 (confirmed): the validation pass keeps, in input order,
exactly the records whose name is present, non-blank after stripping, not
the `"nan nan"` placeholder, and which have at least one of email/phone
present. -/
theorem validation_c5 :
    ∀ L : List Lead,
      (validate_leads L).Sublist L ∧
      ∀ l : Lead,
        l ∈ validate_leads L ↔
          l ∈ L ∧ ∃ s, l.name = some s ∧ pyStrip s ≠ "" ∧ pyStrip s ≠ "nan nan" ∧
            (l.email.isSome = true ∨ l.phone.isSome = true) := by
  intro L
  refine ⟨List.filter_sublist L, ?_⟩
  intro l
  rw [validate_leads, List.mem_filter]
  constructor
  · rintro ⟨hm, hb⟩
    rw [validLeadB, Bool.and_eq_true] at hb
    obtain ⟨hname, hcontact⟩ := hb
    cases hn : l.name with
    | none => rw [hn] at hname; exact absurd hname (by decide)
    | some s =>
      rw [hn] at hname
      simp only [Bool.and_eq_true, bne_iff_ne] at hname
      rw [Bool.or_eq_true] at hcontact
      exact ⟨hm, s, rfl, hname.1, hname.2, hcontact⟩
  · rintro ⟨hm, s, hn, h1, h2, h3⟩
    refine ⟨hm, ?_⟩
    rw [validLeadB, Bool.and_eq_true, hn]
    constructor
    · simp only [Bool.and_eq_true, bne_iff_ne]
      exact ⟨h1, h2⟩
    · rw [Bool.or_eq_true]
      exact h3

/-- Witness for `validation_c5`: a concrete valid record survives. -/
theorem validation_c5_witness :
    (⟨some "Jane Doe", none, some "jane@x.com", none⟩ : Lead) ∈
      validate_leads [⟨some "Jane Doe", none, some "jane@x.com", none⟩] :=
  ((validation_c5 [⟨some "Jane Doe", none, some "jane@x.com", none⟩]).2
      ⟨some "Jane Doe", none, some "jane@x.com", none⟩).mpr
    ⟨by decide, "Jane Doe", rfl, by decide, by decide, Or.inl rfl⟩

/-- Two consecutive strictly-improving updates for the same field equal a
single update with the larger score. -/
theorem stepBest_stepBest (f : ClickUpField) (acc : Option ClickUpField × Nat) (a b : Nat) :
    stepBest f (stepBest f acc a) b = stepBest f acc (max a b) := by
  rcases acc with ⟨bm, bs⟩
  by_cases h1 : bs < a
  · by_cases h2 : a < b
    · have h3 : bs < max a b := by omega
      simp only [stepBest, if_pos h1, if_pos h2, if_pos h3, Prod.mk.injEq]
      exact ⟨trivial, by omega⟩
    · have h3 : bs < max a b := by omega
      simp only [stepBest, if_pos h1, if_neg h2, if_pos h3, Prod.mk.injEq]
      exact ⟨trivial, by omega⟩
  · by_cases h2 : bs < b
    · have h3 : bs < max a b := by omega
      simp only [stepBest, if_neg h1, if_pos h2, if_pos h3, Prod.mk.injEq]
      exact ⟨trivial, by omega⟩
    · have h3 : ¬bs < max a b := by omega
      simp only [stepBest, if_neg h1, if_neg h2, if_neg h3]

/-- A left fold of strictly-improving updates for one field equals a
single update with the maximum of the scores. -/
theorem foldl_stepBest (f : ClickUpField) (scores : List Nat) :
    ∀ acc : Option ClickUpField × Nat,
      scores.foldl (stepBest f) acc = stepBest f acc (scores.foldr max 0) := by
  induction scores with
  | nil =>
    intro acc
    simp only [List.foldl_nil, List.foldr_nil, stepBest]
    rw [if_neg (by omega)]
  | cons s ss ih =>
    intro acc
    rw [List.foldl_cons, ih, stepBest_stepBest, List.foldr_cons]

/-- The sequential per-rule updates of the Python field loop compute one
strictly-improving update with the field's overall score. -/
theorem procField_eq_stepBest (csvL : String) (acc : Option ClickUpField × Nat)
    (f : ClickUpField) :
    procField csvL acc f = stepBest f acc (fieldScore csvL f) := by
  rw [procField, fieldScore]
  have hacc1 :
      (if listHasSub csvL.data (pyLower f.name).data ||
          listHasSub (pyLower f.name).data csvL.data then
        stepBest f acc (min csvL.data.length (pyLower f.name).data.length)
      else acc) = stepBest f acc (subScore csvL (pyLower f.name)) := by
    rw [subScore]
    split
    · rfl
    · rw [stepBest, if_neg (by omega)]
  rw [hacc1]
  have hmap :
      field_patterns.foldl
          (fun a pc => stepBest f a (patCatScore csvL (pyLower f.name) pc.2))
          (stepBest f acc (subScore csvL (pyLower f.name))) =
        (field_patterns.map (fun pc => patCatScore csvL (pyLower f.name) pc.2)).foldl
          (stepBest f) (stepBest f acc (subScore csvL (pyLower f.name))) := by
    rw [List.foldl_map]
  rw [hmap, foldl_stepBest, stepBest_stepBest]

/-- When no field name matches the header exactly, the per-header loop
returns the id carried by the fold of strictly-improving updates. -/
theorem mapHeaderGo_no_exact (csvL : String) (fields : List ClickUpField) :
    ∀ acc, (∀ f ∈ fields, ¬csvL = pyLower f.name) →
      mapHeaderGo csvL fields acc =
        (fields.foldl (fun a f => stepBest f a (fieldScore csvL f)) acc).1.map
          (fun f => f.id) := by
  induction fields with
  | nil => intro acc _; rfl
  | cons f rest ih =>
    intro acc hne
    have hf : ¬(csvL == pyLower f.name) = true := by
      rw [beq_iff_eq]
      exact hne f (List.mem_cons_self _ _)
    simp only [mapHeaderGo, List.foldl_cons]
    rw [if_neg hf, procField_eq_stepBest]
    exact ih _ (fun g hg => hne g (List.mem_cons_of_mem _ hg))

/-- Invariant of the best-match fold: the final score dominates the start
score and every field's score, and the final best is either the start
accumulator or a field attaining the final (strictly improved) score. -/
theorem foldl_best_spec (csvL : String) (fields : List ClickUpField) :
    ∀ acc : Option ClickUpField × Nat,
      acc.2 ≤ (fields.foldl (fun a f => stepBest f a (fieldScore csvL f)) acc).2 ∧
      (∀ f ∈ fields,
        fieldScore csvL f ≤ (fields.foldl (fun a f => stepBest f a (fieldScore csvL f)) acc).2) ∧
      ((fields.foldl (fun a f => stepBest f a (fieldScore csvL f)) acc) = acc ∨
        ∃ f ∈ fields,
          (fields.foldl (fun a f => stepBest f a (fieldScore csvL f)) acc).1 = some f ∧
          (fields.foldl (fun a f => stepBest f a (fieldScore csvL f)) acc).2 =
            fieldScore csvL f ∧
          acc.2 < (fields.foldl (fun a f => stepBest f a (fieldScore csvL f)) acc).2) := by
  induction fields with
  | nil =>
    intro acc
    refine ⟨le_refl _, ?_, Or.inl rfl⟩
    intro f hf
    exact absurd hf (List.not_mem_nil f)
  | cons f rest ih =>
    intro acc
    simp only [List.foldl_cons]
    obtain ⟨ih1, ih2, ih3⟩ := ih (stepBest f acc (fieldScore csvL f))
    have hstep :
        (acc.2 ≤ (stepBest f acc (fieldScore csvL f)).2 ∧
          fieldScore csvL f ≤ (stepBest f acc (fieldScore csvL f)).2) ∧
        ((stepBest f acc (fieldScore csvL f)) = acc ∨
          ((stepBest f acc (fieldScore csvL f)).1 = some f ∧
            (stepBest f acc (fieldScore csvL f)).2 = fieldScore csvL f ∧
            acc.2 < (stepBest f acc (fieldScore csvL f)).2)) := by
      rw [stepBest]
      split
      · next hlt => exact ⟨⟨le_of_lt hlt, le_refl _⟩, Or.inr ⟨rfl, rfl, hlt⟩⟩
      · next hge => exact ⟨⟨le_refl _, by omega⟩, Or.inl rfl⟩
    refine ⟨le_trans hstep.1.1 ih1, ?_, ?_⟩
    · intro g hg
      rcases List.mem_cons.mp hg with hgf | hgr
      · subst hgf
        exact le_trans hstep.1.2 ih1
      · exact ih2 g hgr
    · rcases ih3 with hsame | ⟨g, hg, hg1, hg2, hg3⟩
      · rcases hstep.2 with hsa | ⟨hb1, hb2, hb3⟩
        · exact Or.inl (hsame.trans hsa)
        · exact Or.inr ⟨f, List.mem_cons_self _ _,
            by rw [hsame]; exact hb1, by rw [hsame]; exact hb2,
            by rw [hsame]; exact hb3⟩
      · exact Or.inr ⟨g, List.mem_cons_of_mem _ hg, hg1, hg2,
          lt_of_le_of_lt hstep.1.1 hg3⟩

/-- The per-header loop with an exact match present returns the id of an
exactly matching field. -/
theorem mapHeaderGo_exact (csvL : String) (fields : List ClickUpField) :
    ∀ acc, (∃ f ∈ fields, csvL = pyLower f.name) →
      ∃ g ∈ fields, csvL = pyLower g.name ∧ mapHeaderGo csvL fields acc = some g.id := by
  induction fields with
  | nil =>
    rintro acc ⟨f, hf, _⟩
    exact absurd hf (List.not_mem_nil f)
  | cons f rest ih =>
    intro acc hex
    by_cases hf : csvL = pyLower f.name
    · refine ⟨f, List.mem_cons_self _ _, hf, ?_⟩
      simp only [mapHeaderGo]
      rw [if_pos (beq_iff_eq.mpr hf)]
    · obtain ⟨g, hg, hgeq⟩ := hex
      have hgrest : g ∈ rest := by
        rcases List.mem_cons.mp hg with hgf | hgr
        · exact absurd (hgf ▸ hgeq) hf
        · exact hgr
      obtain ⟨g2, hg2, hg2eq, hres⟩ := ih _ ⟨g, hgrest, hgeq⟩
      refine ⟨g2, List.mem_cons_of_mem _ hg2, hg2eq, ?_⟩
      simp only [mapHeaderGo]
      rw [if_neg (by rw [beq_iff_eq]; exact hf)]
      exact hres

/-- A header not in the CSV has no entry in the produced mapping. -/
theorem lookup_mapping_not_mem (fields : List ClickUpField) (headers : List String)
    (h : String) :
    h ∉ headers → List.lookup h (intelligent_csv_mapping fields headers) = none := by
  induction headers with
  | nil => intro _; rfl
  | cons h0 rest ih =>
    intro hnm
    have hne : ¬h = h0 := fun he => hnm (he ▸ List.mem_cons_self h0 rest)
    have hnr : h ∉ rest := fun hr => hnm (List.mem_cons_of_mem h0 hr)
    have hb : (h == h0) = false := beq_eq_false_iff_ne.mpr hne
    rw [intelligent_csv_mapping, List.filterMap_cons]
    cases hmh : mapHeader (pyStrip (pyLower h0)) fields with
    | none => exact ih hnr
    | some fid =>
      simp only [Option.map_some, List.lookup, hb]
      exact ih hnr

/-- Looking a CSV header up in the produced mapping yields exactly what
the per-header loop computed for it. -/
theorem lookup_mapping (fields : List ClickUpField) (headers : List String) (h : String) :
    h ∈ headers →
      List.lookup h (intelligent_csv_mapping fields headers) =
        mapHeader (pyStrip (pyLower h)) fields := by
  induction headers with
  | nil => intro hmem; exact absurd hmem (List.not_mem_nil h)
  | cons h0 rest ih =>
    intro hmem
    by_cases he : h = h0
    · subst he
      rw [intelligent_csv_mapping, List.filterMap_cons]
      cases hmh : mapHeader (pyStrip (pyLower h)) fields with
      | some fid =>
        simp only [Option.map_some, List.lookup, beq_self_eq_true]
      | none =>
        by_cases hr : h ∈ rest
        · exact (ih hr).trans hmh
        · exact lookup_mapping_not_mem fields rest h hr
    · have hr : h ∈ rest := by
        rcases List.mem_cons.mp hmem with h1 | h1
        · exact absurd h1 he
        · exact h1
      have hb : (h == h0) = false := beq_eq_false_iff_ne.mpr he
      rw [intelligent_csv_mapping, List.filterMap_cons]
      cases hmh : mapHeader (pyStrip (pyLower h0)) fields with
      | none => exact ih hr
      | some fid =>
        simp only [Option.map_some, List.lookup, hb]
        exact ih hr

/-- Claim C6 (confirmed): for every CSV header, an exact case-insensitive
match between the (lowered, stripped) header and a discovered field's
(lowered) name is assigned immediately and cannot be overridden;
otherwise the header goes to a field attaining the highest positive match
score (substring containment scoring the contained string's length,
shared category-pattern membership scoring the longest keyword present in
the header, as combined in `fieldScore`) — and conversely, whenever any
field scores positively the header IS present in the mapping; a header
whose best score is not positive is absent from the mapping. -/
theorem csv_mapping_c6 :
    ∀ (fields : List ClickUpField) (headers : List String) (h : String), h ∈ headers →
      ((∃ f ∈ fields, pyStrip (pyLower h) = pyLower f.name) →
        ∃ g ∈ fields, pyStrip (pyLower h) = pyLower g.name ∧
          List.lookup h (intelligent_csv_mapping fields headers) = some g.id) ∧
      ((∀ f ∈ fields, ¬pyStrip (pyLower h) = pyLower f.name) →
        (∀ fid, List.lookup h (intelligent_csv_mapping fields headers) = some fid →
          ∃ g ∈ fields, g.id = fid ∧ 0 < fieldScore (pyStrip (pyLower h)) g ∧
            ∀ f ∈ fields,
              fieldScore (pyStrip (pyLower h)) f ≤ fieldScore (pyStrip (pyLower h)) g) ∧
        (∀ g ∈ fields, 0 < fieldScore (pyStrip (pyLower h)) g →
          ∃ fid, List.lookup h (intelligent_csv_mapping fields headers) = some fid) ∧
        ((∀ f ∈ fields, fieldScore (pyStrip (pyLower h)) f = 0) →
          List.lookup h (intelligent_csv_mapping fields headers) = none)) := by
  intro fields headers h hmem
  rw [lookup_mapping fields headers h hmem]
  constructor
  · intro hex
    exact mapHeaderGo_exact (pyStrip (pyLower h)) fields (none, 0) hex
  · intro hnex
    have hgo := mapHeaderGo_no_exact (pyStrip (pyLower h)) fields (none, 0) hnex
    obtain ⟨hs1, hs2, hs3⟩ := foldl_best_spec (pyStrip (pyLower h)) fields (none, 0)
    refine ⟨?_, ?_, ?_⟩
    · intro fid hfid
      rw [mapHeader, hgo] at hfid
      obtain ⟨g, hg1, hg2⟩ := Option.map_eq_some'.mp hfid
      rcases hs3 with hsame | ⟨f, hf, hf1, hf2, hf3⟩
      · rw [hsame] at hg1
        exact Option.noConfusion hg1
      · have hgf : g = f := by
          rw [hf1] at hg1
          exact (Option.some.injEq _ _ ▸ hg1).symm
        subst hgf
        refine ⟨g, hf, hg2, ?_, ?_⟩
        · rw [← hf2]; exact hf3
        · intro f2 hf2m
          rw [← hf2]
          exact hs2 f2 hf2m
    · intro g hg hpos
      rw [mapHeader, hgo]
      rcases hs3 with hsame | ⟨f, hf, hf1, hf2, hf3⟩
      · exfalso
        have h2 := hs2 g hg
        rw [hsame] at h2
        simp at h2
        omega
      · exact ⟨f.id, by rw [hf1]; rfl⟩
    · intro hzero
      rw [mapHeader, hgo]
      rcases hs3 with hsame | ⟨f, hf, _, hf2, hf3⟩
      · rw [hsame]; rfl
      · rw [hzero f hf] at hf2
        omega

/-- Witness for `csv_mapping_c6`: its exact-match case applied to a
one-field schema and the header naming that field, and its
positive-score case applied to a header (`Phone Number`) that matches a
field (`Phone`) only through the substring/category rules. -/
theorem csv_mapping_c6_witness :
    (∃ g ∈ [(⟨"id1", "Email", "email", false, none⟩ : ClickUpField)],
      pyStrip (pyLower "Email") = pyLower g.name ∧
      List.lookup "Email"
          (intelligent_csv_mapping [⟨"id1", "Email", "email", false, none⟩] ["Email"]) =
        some g.id) ∧
    (∃ fid,
      List.lookup "Phone Number"
          (intelligent_csv_mapping [⟨"id2", "Phone", "phone", false, none⟩]
            ["Phone Number"]) = some fid) :=
  ⟨(csv_mapping_c6 [⟨"id1", "Email", "email", false, none⟩] ["Email"] "Email"
      (by decide)).1
    ⟨⟨"id1", "Email", "email", false, none⟩, by decide, by decide⟩,
   ((csv_mapping_c6 [⟨"id2", "Phone", "phone", false, none⟩] ["Phone Number"]
        "Phone Number" (by decide)).2 (by decide)).2.1
    ⟨"id2", "Phone", "phone", false, none⟩ (by decide) (by decide)⟩

/-- Claim C7 (confirmed): value coercion is a total function of the
embedding (it never raises: the one fallible Python call, `float`, sits
under a `try` that is modelled by the `pyFloatAccepts` test); blank-ish
input (empty, `nan`, `null`, `none` after stripping and lowering) is
always omitted whatever the field type; and a drop_down coercion only
ever returns `none` or an option identifier stored in the matched
discovered field's own option table — never a fabricated identifier. -/
theorem coercion_totality_c7 :
    (∀ (v ft : String) (fid : Option String) (fields : List ClickUpField),
      pyStrip v = "" ∨ pyLower (pyStrip v) = "nan" ∨ pyLower (pyStrip v) = "null" ∨
        pyLower (pyStrip v) = "none" →
      clean_field_value v ft fid fields = none) ∧
    (∀ (v : String) (fid : Option String) (fields : List ClickUpField) (r : String),
      clean_field_value v "drop_down" fid fields = some r →
      ∃ f ∈ fields, fid = some f.id ∧ f.type = "drop_down" ∧
        ∃ opts, f.options = some opts ∧ ∃ lbl, (lbl, r) ∈ opts) := by
  constructor
  · intro v ft fid fields hblank
    rw [clean_field_value]
    have hcond : (decide (pyStrip v = "") ||
        ["nan", "null", "none", ""].contains (pyLower (pyStrip v))) = true := by
      rcases hblank with h | h | h | h
      · simp [h]
      · simp [h]
      · simp [h]
      · simp [h]
    rw [if_pos hcond]
  · intro v fid fields r h
    rw [clean_field_value] at h
    split at h
    · exact Option.noConfusion h
    · rw [if_neg (by decide : ¬("drop_down" : String) = "email")] at h
      rw [if_neg (by decide : ¬("drop_down" : String) = "phone")] at h
      rw [if_neg (by decide : ¬("drop_down" : String) = "url")] at h
      rw [if_pos (rfl : ("drop_down" : String) = "drop_down")] at h
      split at h
      next fi hfind =>
        have hmem := List.mem_of_find?_eq_some hfind
        have hpred := List.find?_some hfind
        rw [Bool.and_eq_true, beq_iff_eq, beq_iff_eq] at hpred
        split at h
        next opts hopts =>
          split at h
          next o hfx =>
            rcases o with ⟨lbl, val⟩
            have homem := List.mem_of_find?_eq_some hfx
            injection h with hval
            refine ⟨fi, hmem, hpred.1, hpred.2, opts, hopts, lbl, ?_⟩
            rw [← hval]
            exact homem
          next hfx =>
            split at h
            next o hfy =>
              rcases o with ⟨lbl, val⟩
              have homem := List.mem_of_find?_eq_some hfy
              injection h with hval
              refine ⟨fi, hmem, hpred.1, hpred.2, opts, hopts, lbl, ?_⟩
              rw [← hval]
              exact homem
            next hfy => exact Option.noConfusion h
        next hopts => exact Option.noConfusion h
      next hfind => exact Option.noConfusion h

/-- Witness for `coercion_totality_c7`: a blank-ish currency value is
omitted. -/
theorem coercion_totality_c7_witness :
    clean_field_value " nan " "currency" none [] = none :=
  coercion_totality_c7.1 " nan " "currency" none [] (Or.inr (Or.inl (by decide)))

/-- When the lead holds exactly one phone-typed entry `(fid, v)`, the
phone scan finds exactly it, and deleting its key keeps exactly the other
entries (none of which carries the phone field id). -/
theorem findPhone_extract (fields : List ClickUpField) (fid v : String)
    (hph : isPhoneFieldId fields fid = true) :
    ∀ lead : List (String × String),
      lead.countP (fun e => isPhoneFieldId fields e.1) = 1 →
      (fid, v) ∈ lead →
      findPhoneEntry fields lead = some (fid, v) ∧
      (∀ e ∈ lead.eraseP (fun e => e.1 == fid), e ∈ lead ∧ ¬e.1 = fid) ∧
      (∀ e ∈ lead, ¬e = (fid, v) → e ∈ lead.eraseP (fun e => e.1 == fid)) := by
  intro lead
  induction lead with
  | nil => intro _ hmem; exact absurd hmem (List.not_mem_nil _)
  | cons e0 rest ih =>
    intro hcount hmem
    rw [List.countP_cons] at hcount
    by_cases h0 : isPhoneFieldId fields e0.1 = true
    · have hrest0 : rest.countP (fun e => isPhoneFieldId fields e.1) = 0 := by
        rw [h0] at hcount
        rw [if_pos rfl] at hcount
        omega
      have he0 : e0 = (fid, v) := by
        rcases List.mem_cons.mp hmem with h | hmemr
        · exact h.symm
        · exfalso
          have hpos : 0 < rest.countP (fun e => isPhoneFieldId fields e.1) :=
            List.countP_pos_iff.mpr ⟨(fid, v), hmemr, hph⟩
          omega
      subst he0
      refine ⟨?_, ?_, ?_⟩
      · rw [findPhoneEntry, if_pos h0]
      · intro e he
        have herase : ((fid, v) :: rest).eraseP (fun e => e.1 == fid) = rest := by
          apply List.eraseP_cons_of_pos
          exact beq_self_eq_true fid
        rw [herase] at he
        refine ⟨List.mem_cons_of_mem _ he, ?_⟩
        intro hef
        have : isPhoneFieldId fields e.1 = true := by rw [hef]; exact hph
        have hpos : 0 < rest.countP (fun e => isPhoneFieldId fields e.1) :=
          List.countP_pos_iff.mpr ⟨e, he, this⟩
        omega
      · intro e he hne
        have herase : ((fid, v) :: rest).eraseP (fun e => e.1 == fid) = rest := by
          apply List.eraseP_cons_of_pos
          exact beq_self_eq_true fid
        rw [herase]
        rcases List.mem_cons.mp he with h | h
        · exact absurd h hne
        · exact h
    · have hrest1 : rest.countP (fun e => isPhoneFieldId fields e.1) = 1 := by
        rw [Bool.eq_false_iff.mpr h0] at hcount
        rw [if_neg (by decide : ¬false = true)] at hcount
        omega
      have hne0 : ¬e0 = (fid, v) := by
        intro he
        rw [he] at h0
        exact h0 hph
      have hmemr : (fid, v) ∈ rest := by
        rcases List.mem_cons.mp hmem with h | h
        · exact absurd h.symm hne0
        · exact h
      obtain ⟨hfind, her1, her2⟩ := ih hrest1 hmemr
      have hkey : ¬(e0.1 == fid) = true := by
        rw [beq_iff_eq]
        intro hef
        apply h0
        rw [hef]
        exact hph
      have herase : (e0 :: rest).eraseP (fun e => e.1 == fid) =
          e0 :: rest.eraseP (fun e => e.1 == fid) := by
        apply List.eraseP_cons_of_neg
        exact hkey
      refine ⟨?_, ?_, ?_⟩
      · rw [findPhoneEntry, if_neg h0]
        exact hfind
      · intro e he
        rw [herase] at he
        rcases List.mem_cons.mp he with h | h
        · subst h
          exact ⟨List.mem_cons_self _ _, fun hef => hkey (beq_iff_eq.mpr hef)⟩
        · obtain ⟨hel, henf⟩ := her1 e h
          exact ⟨List.mem_cons_of_mem _ hel, henf⟩
      · intro e he hne
        rw [herase]
        rcases List.mem_cons.mp he with h | h
        · subst h
          exact List.mem_cons_self _ _
        · exact List.mem_cons_of_mem _ (her2 e h hne)

/-- Unfolding of one upload iteration as a match on the oracle results. -/
theorem upload_lead_eq (fields : List ClickUpField) (create : TaskPayload → Option String)
    (update : String → List CustomFieldEntry → Bool) (i : Nat)
    (lead : List (String × String)) :
    upload_lead fields create update i lead =
      match create (uploadCreatePayload fields i lead) with
      | none => ⟨uploadCreatePayload fields i lead, none, none, false⟩
      | some tid =>
        match findPhoneEntry fields lead with
        | some pe =>
          ⟨uploadCreatePayload fields i lead, some tid,
            some (tid, [⟨pe.1, pe.2⟩], update tid [⟨pe.1, pe.2⟩]), true⟩
        | none => ⟨uploadCreatePayload fields i lead, some tid, none, true⟩ := rfl

/-- The create payload of an upload iteration, whatever the oracles do. -/
theorem upload_lead_createPayload (fields : List ClickUpField)
    (create : TaskPayload → Option String)
    (update : String → List CustomFieldEntry → Bool) (i : Nat)
    (lead : List (String × String)) :
    (upload_lead fields create update i lead).createPayload =
      uploadCreatePayload fields i lead := by
  rw [upload_lead_eq]
  split
  · rfl
  · split
    · rfl
    · rfl

/-- Claim C3 (confirmed): for a lead whose single phone-typed entry is
`(fid, v)`, the create call's payload carries every other coerced field
and never the phone field; when the create returns a task id, a separate
update against exactly that id carrying only the phone field is issued,
and the lead counts as a success whether or not that update succeeded
(the create is never rolled back); when the create fails the lead does
not count.  The batch loop processes every lead independently: the
success count over a concatenation splits, so no per-lead outcome stops
the loop. -/
theorem two_phase_upload_c3 :
    (∀ (fields : List ClickUpField) (create : TaskPayload → Option String)
        (update : String → List CustomFieldEntry → Bool) (i : Nat)
        (lead : List (String × String)) (fid v : String),
      (fid, v) ∈ lead →
      isPhoneFieldId fields fid = true →
      lead.countP (fun e => isPhoneFieldId fields e.1) = 1 →
      (∀ e ∈ lead, ¬e.1 = fid →
        (⟨e.1, e.2⟩ : CustomFieldEntry) ∈
          (upload_lead fields create update i lead).createPayload.custom_fields) ∧
      (∀ c ∈ (upload_lead fields create update i lead).createPayload.custom_fields,
        ¬c.id = fid ∧ (c.id, c.value) ∈ lead) ∧
      (∀ tid, create (uploadCreatePayload fields i lead) = some tid →
        (upload_lead fields create update i lead).createdTask = some tid ∧
        (upload_lead fields create update i lead).phoneUpdate =
          some (tid, [⟨fid, v⟩], update tid [⟨fid, v⟩]) ∧
        (upload_lead fields create update i lead).countedSuccess = true) ∧
      (create (uploadCreatePayload fields i lead) = none →
        (upload_lead fields create update i lead).countedSuccess = false)) ∧
    (∀ (fields : List ClickUpField) (create : TaskPayload → Option String)
        (update : String → List CustomFieldEntry → Bool)
        (leads1 leads2 : List (List (String × String))) (i : Nat),
      uploadBatchGo fields create update i (leads1 ++ leads2) =
        uploadBatchGo fields create update i leads1 +
          uploadBatchGo fields create update (i + leads1.length) leads2) := by
  constructor
  · intro fields create update i lead fid v hmem hph hcount
    obtain ⟨hfind, her1, her2⟩ := findPhone_extract fields fid v hph lead hcount hmem
    have hrest : uploadRest fields lead = lead.eraseP (fun e => e.1 == fid) := by
      rw [uploadRest, hfind]
    refine ⟨?_, ?_, ?_, ?_⟩
    · intro e he hene
      rw [upload_lead_createPayload, uploadCreatePayload, hrest]
      exact List.mem_map.mpr ⟨e, her2 e he (fun hev => hene (by rw [hev])), rfl⟩
    · intro c hc
      rw [upload_lead_createPayload, uploadCreatePayload, hrest] at hc
      obtain ⟨e, hee, hec⟩ := List.mem_map.mp hc
      obtain ⟨hel, hene⟩ := her1 e hee
      constructor
      · rw [← hec]; exact hene
      · rw [← hec]; exact hel
    · intro tid htid
      have hres : upload_lead fields create update i lead =
          ⟨uploadCreatePayload fields i lead, some tid,
            some (tid, [⟨fid, v⟩], update tid [⟨fid, v⟩]), true⟩ := by
        rw [upload_lead_eq, htid, hfind]
      rw [hres]
      exact ⟨rfl, rfl, rfl⟩
    · intro hnone
      have hres : upload_lead fields create update i lead =
          ⟨uploadCreatePayload fields i lead, none, none, false⟩ := by
        rw [upload_lead_eq, hnone]
      rw [hres]
  · intro fields create update leads1 leads2
    induction leads1 with
    | nil => intro i; simp [uploadBatchGo]
    | cons l rest ih =>
      intro i
      rw [List.cons_append]
      rw [uploadBatchGo, uploadBatchGo, ih (i + 1)]
      rw [List.length_cons]
      have harith : i + 1 + rest.length = i + (rest.length + 1) := by omega
      rw [harith]
      omega

/-- Witness for `two_phase_upload_c3`: a concrete lead with an email and a
phone field, a create oracle returning task id `t1` and an update oracle
that FAILS — the phone update is still issued only against `t1` with only
the phone field, and the lead still counts as a success. -/
theorem two_phase_upload_c3_witness :
    (upload_lead
        [⟨"pf", "Phone", "phone", false, none⟩, ⟨"ef", "Email", "email", false, none⟩]
        (fun _ => some "t1") (fun _ _ => false) 1
        [("ef", "jane@x.com"), ("pf", "+1 555 123 4567")]).createdTask = some "t1" ∧
    (upload_lead
        [⟨"pf", "Phone", "phone", false, none⟩, ⟨"ef", "Email", "email", false, none⟩]
        (fun _ => some "t1") (fun _ _ => false) 1
        [("ef", "jane@x.com"), ("pf", "+1 555 123 4567")]).phoneUpdate =
      some ("t1", [⟨"pf", "+1 555 123 4567"⟩], false) ∧
    (upload_lead
        [⟨"pf", "Phone", "phone", false, none⟩, ⟨"ef", "Email", "email", false, none⟩]
        (fun _ => some "t1") (fun _ _ => false) 1
        [("ef", "jane@x.com"), ("pf", "+1 555 123 4567")]).countedSuccess = true :=
  (two_phase_upload_c3.1
      [⟨"pf", "Phone", "phone", false, none⟩, ⟨"ef", "Email", "email", false, none⟩]
      (fun _ => some "t1") (fun _ _ => false) 1
      [("ef", "jane@x.com"), ("pf", "+1 555 123 4567")] "pf" "+1 555 123 4567"
      (by decide) (by decide) (by decide)).2.2.1 "t1" rfl

/-- Claim C8 counterexample: in a CTO frame where the first row has
positive revenue and the second has none, the revenue-less row receives
the SHARED default 5000 from `estimate_value_from_revenue`, not the
source-specific 7500 the claim states; the flat 7500 applies only when
the whole revenue column is empty. -/
theorem estimated_value_c8_counterexample :
    george_cto_estimated_values [some 2000000, none] = [2000, 5000] ∧
    george_cto_estimated_values [none, none] = [7500, 7500] ∧
    (5000 : Int) ≠ 7500 := by
  refine ⟨?_, ?_, by decide⟩
  · rw [george_cto_estimated_values, if_pos (by decide)]
    show [estimate_value_from_revenue (some 2000000), estimate_value_from_revenue none] = _
    rw [estimate_value_from_revenue, estimate_value_from_revenue]
    norm_num
  · rw [george_cto_estimated_values, if_neg (by decide)]
    rfl

/-- Claim C8 (corrected: a row whose revenue is absent gets the shared
default 5000 whenever any row of the frame carries revenue; the
source-specific flat 7500 applies only when the revenue column is
entirely absent): present positive revenue yields the integer part of
0.1 percent of it clamped into [1000, 500000]. -/
theorem estimated_value_c8 :
    (∀ (revs : List (Option ℚ)) (i : Nat) (r : ℚ),
      revs.get? i = some (some r) → 0 < r →
      (george_cto_estimated_values revs).get? i =
        some (max 1000 (min 500000 (Int.floor (r * (1 / 1000)))))) ∧
    (∀ (revs : List (Option ℚ)) (i : Nat),
      revs.get? i = some none → revs.any (fun x => x.isSome) = true →
      (george_cto_estimated_values revs).get? i = some 5000) ∧
    (∀ revs : List (Option ℚ), revs.all (fun x => x.isNone) = true →
      george_cto_estimated_values revs = revs.map (fun _ => 7500)) := by
  refine ⟨?_, ?_, ?_⟩
  · intro revs i r hget hpos
    have hmemr : some r ∈ revs := List.get?_mem hget
    have hany : revs.any (fun x => x.isSome) = true := by
      rw [List.any_eq_true]
      exact ⟨some r, hmemr, rfl⟩
    rw [george_cto_estimated_values, if_pos hany, List.get?_map, hget, Option.map_some']
    rw [estimate_value_from_revenue, if_neg (not_le.mpr hpos)]
  · intro revs i hget hany
    rw [george_cto_estimated_values, if_pos hany, List.get?_map, hget, Option.map_some']
    rfl
  · intro revs hall
    have hnone : ¬revs.any (fun x => x.isSome) = true := by
      intro hany
      rw [List.any_eq_true] at hany
      obtain ⟨x, hx, hxs⟩ := hany
      rw [List.all_eq_true] at hall
      have hxn := hall x hx
      cases x with
      | none => exact Bool.noConfusion hxs
      | some y => exact Bool.noConfusion hxn
    rw [george_cto_estimated_values, if_neg hnone]

/-- Witness for `estimated_value_c8`: its positive-revenue case applied to
a one-row frame. -/
theorem estimated_value_c8_witness :
    (george_cto_estimated_values [some 2000000]).get? 0 =
      some (max 1000 (min 500000 (Int.floor ((2000000 : ℚ) * (1 / 1000))))) :=
  estimated_value_c8.1 [some 2000000] 0 2000000 rfl (by norm_num)

/-- Claim C9 counterexample: a discovery run over one task whose single
custom field is a `drop_down` with an empty option table stores that
field with `options = some []` — a drop_down field carrying NO option
entry — refuting "every discovered drop_down field carries at least one
option label→identifier entry". -/
theorem options_invariant_c9_counterexample :
    discover_board_structure [[⟨"f1", "Stage", "drop_down", false, some []⟩]] =
      [("Stage", ⟨"f1", "Stage", "drop_down", false, some []⟩)] ∧
    (⟨"f1", "Stage", "drop_down", false, some []⟩ : ClickUpField).type = "drop_down" ∧
    (⟨"f1", "Stage", "drop_down", false, some []⟩ : ClickUpField).options = some [] := by
  exact ⟨by decide, rfl, rfl⟩

/-- Membership after a Python-dict insertion: an entry of the new dict is
an old entry or the inserted pair. -/
theorem dictInsert_mem {β : Type} (acc : List (String × β)) (k : String) (v : β)
    (a : String) (b : β) :
    (a, b) ∈ dictInsert acc k v → (a, b) ∈ acc ∨ (a = k ∧ b = v) := by
  rw [dictInsert]
  split
  · intro h
    obtain ⟨e, he, heq⟩ := List.mem_map.mp h
    by_cases hek : (e.1 == k) = true
    · rw [if_pos hek] at heq
      right
      exact ⟨(congrArg Prod.fst heq).symm, (congrArg Prod.snd heq).symm⟩
    · rw [if_neg hek] at heq
      left
      rw [← heq]
      exact he
  · intro h
    rcases List.mem_append.mp h with h | h
    · left; exact h
    · right
      have heq := List.mem_singleton.mp h
      exact ⟨congrArg Prod.fst heq, congrArg Prod.snd heq⟩

/-- Every field built from a raw custom-field entry satisfies the
options/type relation of the (amended) invariant. -/
theorem fieldOfRaw_options (rf : RawField) :
    (¬(fieldOfRaw rf).type = "drop_down" → (fieldOfRaw rf).options = none) ∧
    (∀ opts, (fieldOfRaw rf).options = some opts → (fieldOfRaw rf).type = "drop_down") := by
  cases htc : rf.typeConfig with
  | none =>
    have h : fieldOfRaw rf = ⟨rf.id, rf.name, rf.type, rf.required, none⟩ := by
      rw [fieldOfRaw, htc]
    rw [h]
    exact ⟨fun _ => rfl, fun opts hx => Option.noConfusion hx⟩
  | some cfg =>
    by_cases ht : (rf.type == "drop_down") = true
    · have ht2 : rf.type = "drop_down" := beq_iff_eq.mp ht
      have h : fieldOfRaw rf =
          ⟨rf.id, rf.name, rf.type, rf.required, some (buildOptions cfg)⟩ := by
        rw [fieldOfRaw, htc]
        dsimp only
        rw [if_pos ht]
      rw [h]
      exact ⟨fun hn => absurd ht2 hn, fun _ _ => ht2⟩
    · have h : fieldOfRaw rf = ⟨rf.id, rf.name, rf.type, rf.required, none⟩ := by
        rw [fieldOfRaw, htc]
        dsimp only
        rw [if_neg ht]
      rw [h]
      exact ⟨fun _ => rfl, fun opts hx => Option.noConfusion hx⟩

/-- The per-task fold preserves the invariant on every stored entry. -/
theorem task_fold_pred (P : ClickUpField → Prop)
    (hP : ∀ rf : RawField, P (fieldOfRaw rf)) :
    ∀ (task : List RawField) (acc : List (String × ClickUpField)),
      (∀ p ∈ acc, P p.2) →
      ∀ p ∈ task.foldl (fun acc f => dictInsert acc f.name (fieldOfRaw f)) acc, P p.2 := by
  intro task
  induction task with
  | nil => intro acc hacc p hp; exact hacc p hp
  | cons rf rest ih =>
    intro acc hacc p hp
    rw [List.foldl_cons] at hp
    refine ih _ ?_ p hp
    intro q hq
    rcases q with ⟨a, b⟩
    rcases dictInsert_mem acc rf.name (fieldOfRaw rf) a b hq with h | ⟨_, hb⟩
    · exact hacc _ h
    · rw [hb]; exact hP rf

/-- Claim C9 (corrected: the code never attaches options to a field of any
other type, and a populated options table only ever comes with a
drop_down field, but a discovered drop_down field may carry an EMPTY
(or, without a type_config, absent) options table): the amended
options/type invariant holds for every entry of every discovery run. -/
theorem options_invariant_c9 :
    ∀ (tasks : List (List RawField)) (n : String) (f : ClickUpField),
      (n, f) ∈ discover_board_structure tasks →
      (¬f.type = "drop_down" → f.options = none) ∧
      (∀ opts, f.options = some opts → f.type = "drop_down") := by
  have key : ∀ (tasks : List (List RawField)) (acc : List (String × ClickUpField)),
      (∀ p ∈ acc,
        (¬p.2.type = "drop_down" → p.2.options = none) ∧
        (∀ opts, p.2.options = some opts → p.2.type = "drop_down")) →
      ∀ p ∈ tasks.foldl
          (fun acc task => task.foldl (fun acc f => dictInsert acc f.name (fieldOfRaw f)) acc)
          acc,
        (¬p.2.type = "drop_down" → p.2.options = none) ∧
        (∀ opts, p.2.options = some opts → p.2.type = "drop_down") := by
    intro tasks
    induction tasks with
    | nil => intro acc hacc p hp; exact hacc p hp
    | cons task rest ih =>
      intro acc hacc p hp
      rw [List.foldl_cons] at hp
      refine ih _ ?_ p hp
      exact task_fold_pred
        (fun g => (¬g.type = "drop_down" → g.options = none) ∧
          (∀ opts, g.options = some opts → g.type = "drop_down"))
        fieldOfRaw_options task acc hacc
  intro tasks n f hmem
  exact key tasks [] (fun p hp => absurd hp (List.not_mem_nil p)) (n, f) hmem

/-- Witness for `options_invariant_c9`: the invariant instantiated on a
discovered email field. -/
theorem options_invariant_c9_witness :
    (¬(⟨"f2", "Email", "email", false, none⟩ : ClickUpField).type = "drop_down" →
      (⟨"f2", "Email", "email", false, none⟩ : ClickUpField).options = none) ∧
    (∀ opts, (⟨"f2", "Email", "email", false, none⟩ : ClickUpField).options = some opts →
      (⟨"f2", "Email", "email", false, none⟩ : ClickUpField).type = "drop_down") :=
  options_invariant_c9 [[⟨"f2", "Email", "email", false, none⟩]] "Email"
    ⟨"f2", "Email", "email", false, none⟩ (by decide)

/-- The concatenation of the batch slices is a subsequence of the sliced
list (it is in fact the whole list when the batch size is positive, and
empty when it is zero). -/
theorem batchChunksGo_join_sublist {α : Type} (bs : Nat) :
    ∀ (fuel : Nat) (l : List α), l.length ≤ fuel →
      ((batchChunksGo bs fuel l).flatten).Sublist l := by
  intro fuel
  induction fuel with
  | zero =>
    intro l hl
    have hnil : l = [] := List.length_eq_zero.mp (Nat.le_zero.mp hl)
    subst hnil
    simp [batchChunksGo]
  | succ n ih =>
    intro l hl
    cases l with
    | nil => simp [batchChunksGo]
    | cons x xs =>
      cases bs with
      | zero => simp [batchChunksGo]
      | succ b =>
        rw [batchChunksGo, List.flatten_cons]
        have hrec := ih (xs.drop b) (by rw [List.length_drop]; simp at hl; omega)
        have hsplit : (x :: xs).take (b + 1) ++ xs.drop b = x :: xs := by
          have hdrop : xs.drop b = (x :: xs).drop (b + 1) := rfl
          rw [hdrop, List.take_append_drop]
        calc ((x :: xs).take (b + 1) ++ (batchChunksGo (b + 1) n (xs.drop b)).flatten).Sublist
              ((x :: xs).take (b + 1) ++ xs.drop b) :=
            List.Sublist.append (List.Sublist.refl _) hrec
          _ = x :: xs := hsplit

/-- Folding append-of-filterMap over the batches filters the joined
batches. -/
theorem foldl_append_filterMap {α : Type} (create : α → Option String) :
    ∀ (bss : List (List α)) (acc : List String),
      bss.foldl (fun acc batch => acc ++ batch.filterMap create) acc =
        acc ++ (bss.flatten).filterMap create := by
  intro bss
  induction bss with
  | nil => intro acc; simp
  | cons b rest ih =>
    intro acc
    rw [List.foldl_cons, ih, List.flatten_cons, List.filterMap_append, List.append_assoc]

/-- Claim C10 (confirmed): the leadgen upload truncates the validated
frame to its first 3 rows before any create call — whatever the frame
size and whatever the batch size — so at most 3 tasks are ever created,
and every created task comes from one of the first 3 rows. -/
theorem upload_truncation_c10 :
    (∀ {α : Type} (create : α → Option String) (bs : Nat) (df : List α),
      (upload_to_clickup create bs df).length ≤ 3) ∧
    (∀ {α : Type} (create : α → Option String) (bs : Nat) (df : List α) (t : String),
      t ∈ upload_to_clickup create bs df → ∃ l ∈ df.take 3, create l = some t) := by
  have hform : ∀ {α : Type} (create : α → Option String) (bs : Nat) (df : List α),
      upload_to_clickup create bs df =
        ((batchChunks bs (df.take 3)).flatten).filterMap create := by
    intro α create bs df
    rw [upload_to_clickup, foldl_append_filterMap, List.nil_append]
  have hsub : ∀ {α : Type} (bs : Nat) (l : List α),
      ((batchChunks bs l).flatten).Sublist l :=
    fun bs l => batchChunksGo_join_sublist bs l.length l (le_refl _)
  constructor
  · intro α create bs df
    rw [hform]
    calc (((batchChunks bs (df.take 3)).flatten).filterMap create).length
        ≤ ((batchChunks bs (df.take 3)).flatten).length := List.length_filterMap_le _ _
      _ ≤ (df.take 3).length := (hsub bs (df.take 3)).length_le
      _ ≤ 3 := List.length_take_le _ _
  · intro α create bs df t ht
    rw [hform] at ht
    obtain ⟨l, hl, hcl⟩ := List.mem_filterMap.mp ht
    exact ⟨l, (hsub bs (df.take 3)).subset hl, hcl⟩

/-- Witness for `upload_truncation_c10`: with five rows and the default
batch size, a created task id comes from the first three rows. -/
theorem upload_truncation_c10_witness :
    ∃ l ∈ ([0, 1, 2, 3, 4] : List Nat).take 3, (fun _ : Nat => some "t") l = some "t" :=
  upload_truncation_c10.2 (fun _ : Nat => some "t") 5 [0, 1, 2, 3, 4] "t" (by decide)
